import Mathlib

/-!
Verification development for the `gemlib_tfp` repository: a shallow
embedding in Lean 4 of the occult-event Metropolis-Hastings kernel
(`gemlib_tfp/mcmc/occult_events_mh.py`) and of the discrete-time state
transition model (`gemlib_tfp/distributions/discrete_time_state_transition.py`),
together with theorems settling the specification's claims about them.

Event counts are modelled as integers (the tensors hold whole numbers of
events), uniform variates and log densities as rationals.  The modules
`occult_proposal.py`, `impl/discrete_markov.py` and `impl/util.py` are
imported by the sources but are not part of the repository snapshot; the
definitions that stand in for them are marked `Modelled from the spec:` in
their doc comments and are faithful to the specification's description.
-/

namespace GemlibTfp

/-- The event-count tensor mutated by the occult kernel.  The code stores a
rank-3 tensor addressed by metapopulation `m`, time `t` and transition `x`
(the index order stacked by `_add_events`); `M`, `T`, `X` are the extents of
the three axes and `val` the entries. -/
@[ext]
structure EventTensor where
  M : ℕ
  T : ℕ
  X : ℕ
  val : ℕ → ℕ → ℕ → ℤ

/-- The `topology` configuration consulted by the kernel; the code reads
`topology.target` (also exposed as `topology["target_transition"]`), the
index of the transition type being augmented. -/
structure Topology where
  target : ℕ

/-- The sampled update dictionary `{m, t, x_star}` returned by
`proposal.sample()`: metapopulation index, time index, and event count. -/
structure Update where
  m : ℕ
  t : ℕ
  x_star : ℕ

/-- `OccultKernelResults`, the namedtuple
`(log_acceptance_correction, target_log_prob, extra)` emitted by the
kernel. -/
structure OccultKernelResults where
  log_acceptance_correction : ℚ
  target_log_prob : ℚ
  extra : List ℤ

/-- `_add_events(events, m, t, x, x_star)`: scatter-adds `x_star` onto the
single cell `(m, t, x)` of `events` (`tf.tensor_scatter_nd_add` with the one
index row `[m, t, x]`). -/
def addEvents (events : EventTensor) (m t x : ℕ) (x_star : ℤ) : EventTensor :=
  { events with
    val := fun m' t' x' =>
      if m' = m ∧ t' = t ∧ x' = x then events.val m' t' x' + x_star
      else events.val m' t' x' }

/-- `tf.math.count_nonzero(current_events[..., x])`: the number of entries of
the slice at transition `x` that are non-zero. -/
def countNonzero (ev : EventTensor) (x : ℕ) : ℕ :=
  ∑ m ∈ Finset.range ev.M, ∑ t ∈ Finset.range ev.T,
    if ev.val m t x ≠ 0 then 1 else 0

/-- The branch condition of `one_step`:
`(u < 0.5) & (tf.math.count_nonzero(current_events[..., target]) > 0)`;
`true` selects the delete branch (`del_occult_fn`), `false` the add branch
(`add_occult_fn`). -/
def chooseDelete (u : ℚ) (ev : EventTensor) (target : ℕ) : Bool :=
  decide (u < 1 / 2) && decide (0 < countNonzero ev target)

/-- Modelled from the spec: a deterministic pseudo-random step (the explicit
generator handle the spec's §9 asks for; the repository threads TensorFlow
seeds, which are absent from the snapshot).  A linear congruential map on
31-bit naturals. -/
def prngStep (s : ℕ) : ℕ :=
  (1103515245 * s + 12345) % 2 ^ 31

/-- Modelled from the spec: `AddOccultProposal.sample()` from
`occult_proposal.py` (not under `src/`).  Per §4.4 it draws a metapopulation
index, a time index within `t_range` when given, and a count `x_star` of
events to insert, never exceeding `n_max`.  Here each stage is a uniform
draw from the threaded generator; `x_star` lies in `[1, n_max]`. -/
def addOccultSample (ev : EventTensor) (n_max : ℕ) (t_range : Option (ℕ × ℕ))
    (seed : ℕ) : Update :=
  let m := prngStep seed % ev.M
  let lo := (t_range.getD (0, ev.T)).1
  let hi := (t_range.getD (0, ev.T)).2
  let t := lo + prngStep (seed + 1) % (hi - lo)
  let x_star := 1 + prngStep (seed + 2) % n_max
  ⟨m, t, x_star⟩

/-- The `(m, t)` cells eligible for a delete proposal: cells of the target
transition slice holding a positive event count, with `t` restricted to
`t_range` when given. -/
def occupiedCells (ev : EventTensor) (target : ℕ) (t_range : Option (ℕ × ℕ)) :
    List (ℕ × ℕ) :=
  ((List.range ev.M).map fun m =>
    ((List.range ev.T).filter fun t =>
        (t_range.getD (0, ev.T)).1 ≤ t ∧ t < (t_range.getD (0, ev.T)).2).filterMap
      fun t => if 0 < ev.val m t target then some (m, t) else none).flatten

/-- Modelled from the spec: `DelOccultProposal.sample()` from
`occult_proposal.py` (not under `src/`).  Per §4.4 it draws a
metapopulation/time/count to remove from existing occult events at the
target transition type, never removing more events than currently present
at that cell.  Here a uniformly chosen occupied cell supplies `(m, t)` and
`x_star` lies in `[1, count(m, t)]`; when no cell is occupied (a case the
kernel's zero-count guard excludes) the degenerate update `(0, 0, 0)` is
returned. -/
def delOccultSample (ev : EventTensor) (target : ℕ) (t_range : Option (ℕ × ℕ))
    (seed : ℕ) : Update :=
  let cells := occupiedCells ev target t_range
  if cells.isEmpty then ⟨0, 0, 0⟩
  else
    let cell := cells.getD (prngStep seed % cells.length) (0, 0)
    let c := (ev.val cell.1 cell.2 target).toNat
    ⟨cell.1, cell.2, 1 + prngStep (seed + 2) % c⟩

/-- The `UncalibratedOccultUpdate` kernel's configuration: the injected
target log density, the topology, the occult cap `nmax` and the optional
time window `t_range`. -/
structure UncalibratedOccultUpdate where
  target_log_prob_fn : EventTensor → ℚ
  topology : Topology
  nmax : ℕ
  t_range : Option (ℕ × ℕ)

/-- The log acceptance correction computed by `add_occult_fn`: the update is
scored under the reverse `DelOccultProposal` built on the post-update state
and under the forward `AddOccultProposal` built on the current state, and
the correction is their difference `q_rev - q_fwd`.  `addLP ev` stands for
`AddOccultProposal(events=ev, ...).log_prob` and `delLP ev` for
`DelOccultProposal(events=ev, ...).log_prob` (their closed forms live in
`occult_proposal.py`, not under `src/`). -/
def addMoveCorrection (addLP delLP : EventTensor → Update → ℚ) (target : ℕ)
    (ev : EventTensor) (u : Update) : ℚ :=
  delLP (addEvents ev u.m u.t target (u.x_star : ℤ)) u - addLP ev u

/-- The log acceptance correction computed by `del_occult_fn`: the update is
scored under the reverse `AddOccultProposal` built on the post-update state
and under the forward `DelOccultProposal` built on the current state, and
the correction is their difference `q_rev - q_fwd`. -/
def delMoveCorrection (addLP delLP : EventTensor → Update → ℚ) (target : ℕ)
    (ev : EventTensor) (u : Update) : ℚ :=
  addLP (addEvents ev u.m u.t target (-(u.x_star : ℤ))) u - delLP ev u

/-- `add_occult_fn` of `one_step`: sample the forward `AddOccultProposal`
built on the current state, scatter-add `+x_star` at the sampled
`(m, t, target)`, and compute the correction from the reverse
`DelOccultProposal` built on the resulting state.  The kernel then scores
`next_state` under `target_log_prob_fn` and emits the results record with
`extra = concat [m, t, x_star]`. -/
def addBranch (k : UncalibratedOccultUpdate)
    (addLP delLP : EventTensor → Update → ℚ)
    (current_events : EventTensor) (seed : ℕ) :
    EventTensor × OccultKernelResults :=
  let upd := addOccultSample current_events k.nmax k.t_range seed
  let next := addEvents current_events upd.m upd.t k.topology.target
    (upd.x_star : ℤ)
  ⟨next,
    ⟨addMoveCorrection addLP delLP k.topology.target current_events upd,
      k.target_log_prob_fn next, [(upd.m : ℤ), (upd.t : ℤ), (upd.x_star : ℤ)]⟩⟩

/-- `del_occult_fn` of `one_step`: sample the forward `DelOccultProposal`
built on the current state, scatter-add `-x_star` at the sampled
`(m, t, target)`, and compute the correction from the reverse
`AddOccultProposal` built on the resulting state. -/
def delBranch (k : UncalibratedOccultUpdate)
    (addLP delLP : EventTensor → Update → ℚ)
    (current_events : EventTensor) (seed : ℕ) :
    EventTensor × OccultKernelResults :=
  let upd := delOccultSample current_events k.topology.target k.t_range seed
  let next := addEvents current_events upd.m upd.t k.topology.target
    (-(upd.x_star : ℤ))
  ⟨next,
    ⟨delMoveCorrection addLP delLP k.topology.target current_events upd,
      k.target_log_prob_fn next, [(upd.m : ℤ), (upd.t : ℤ), (upd.x_star : ℤ)]⟩⟩

/-- `UncalibratedOccultUpdate.one_step`: draw `u ~ Uniform(0,1)`; when
`u < 0.5` and the target transition slice has a non-zero entry run
`del_occult_fn`, otherwise `add_occult_fn`. -/
def one_step (k : UncalibratedOccultUpdate)
    (addLP delLP : EventTensor → Update → ℚ)
    (current_events : EventTensor) (u : ℚ) (seed : ℕ) :
    EventTensor × OccultKernelResults :=
  if chooseDelete u current_events k.topology.target then
    delBranch k addLP delLP current_events seed
  else
    addBranch k addLP delLP current_events seed

/-- `UncalibratedOccultUpdate.bootstrap_results(init_state)`: evaluates the
target log density at the initial state and returns the results record with
a zero correction and the zeroed diagnostics vector
`tf.constant([0, 0, 0])`. -/
def bootstrap_results (k : UncalibratedOccultUpdate) (init_state : EventTensor) :
    OccultKernelResults :=
  ⟨0, k.target_log_prob_fn init_state, [0, 0, 0]⟩

/-- Every entry of the event tensor is non-negative. -/
def Nonneg (ev : EventTensor) : Prop :=
  ∀ m t x, 0 ≤ ev.val m t x

/-- A sequence of `one_step` calls: each list element supplies the uniform
variate and seed of one call, and each call's `next_state` feeds the
next. -/
def iterateSteps (k : UncalibratedOccultUpdate)
    (addLP delLP : EventTensor → Update → ℚ) :
    EventTensor → List (ℚ × ℕ) → EventTensor
  | ev, [] => ev
  | ev, (u, s) :: rest =>
      iterateSteps k addLP delLP (one_step k addLP delLP ev u s).1 rest

/-- A metapopulation state: one row of compartment counts per
metapopulation (`[metapopulations × compartments]`, spec §3). -/
abbrev SimState := List (List ℤ)

/-- Modelled from the spec: the hazard-to-probability conversion
`1 - exp(-hazard * timeStep)` of §4.4 step (2), performed in
`impl/discrete_markov.py` (not under `src/`).  `exp` is transcendental, so
the embedding uses the rational map `h*dt / (1 + h*dt)` which shares the
properties the claims rely on: zero or negative hazard gives zero
probability (§4.2 edge case, §7(c) clamping) and values stay in `[0, 1)`. -/
def hazardToProb (h dt : ℚ) : ℚ :=
  if h * dt ≤ 0 then 0 else h * dt / (1 + h * dt)

/-- Modelled from the spec: §4.1, `transition_coords(stoichiometry)` from
`impl/util.py` (not under `src/`): one `(source, target)` pair per row,
derived by locating the negative and the positive entry. -/
def transition_coords (stoich : List (List ℤ)) : List (ℕ × ℕ) :=
  stoich.map fun row =>
    (row.findIdx (fun v => v < 0), row.findIdx (fun v => 0 < v))

/-- Modelled from the spec: §4.2 step (3), the binomial-thinning allocation
of one metapopulation's departures performed inside
`impl/discrete_markov.py` (not under `src/`).  Transitions are visited in
order; each draws a count from the threaded generator, capped by the
remaining occupancy of its source compartment (so the total leaving a
compartment never exceeds its occupancy) and forced to zero when its event
probability is zero.  `remaining` starts as the compartment row and is
depleted as counts are drawn. -/
def allocDraws (probs : List ℚ) (srcOf : ℕ → ℕ) (seed : ℕ) :
    List ℕ → List ℤ → List ℕ
  | [], _ => []
  | r :: rs, remaining =>
      let s := srcOf r
      let rem := remaining.getD s 0
      let d : ℕ :=
        if probs.getD r 0 ≤ 0 ∨ rem ≤ 0 then 0
        else prngStep (seed + 997 * r) % (rem.toNat + 1)
      d :: allocDraws probs srcOf seed rs (remaining.set s (rem - d))

/-- Modelled from the spec: §4.2 step (4), applying the sampled transition
counts to one metapopulation's compartment row through the stoichiometry
matrix: compartment `c` changes by `∑ r counts[r] * stoich[r][c]`. -/
def applyStoich (stoich : List (List ℤ)) (counts : List ℕ) (comps : List ℤ) :
    List ℤ :=
  (List.range comps.length).map fun c =>
    comps.getD c 0 +
      ((List.range counts.length).map fun r =>
        (counts.getD r 0 : ℤ) * (stoich.getD r []).getD c 0).sum

/-- Modelled from the spec: one discrete step of `discrete_markov_simulation`
(§4.2 steps (1)-(5)): evaluate the hazards at `(t, state)`, convert them to
probabilities, draw thinned counts per metapopulation from the threaded
generator, and update each metapopulation's compartments.  Returns the
recorded event counts (`[metapopulation][transition]`) and the next
state. -/
def simOneStep (hazard_fn : ℚ → SimState → List (List ℚ))
    (stoich : List (List ℤ)) (dt t : ℚ) (seed : ℕ) (state : SimState) :
    List (List ℕ) × SimState :=
  let rates := hazard_fn t state
  let srcOf : ℕ → ℕ := fun r => (stoich.getD r []).findIdx (fun v => v < 0)
  let events := (List.range state.length).map fun m =>
    let probs := (rates.getD m []).map fun h => hazardToProb h dt
    allocDraws probs srcOf (prngStep (seed + 31 * m))
      (List.range stoich.length) (state.getD m [])
  let state' := (List.range state.length).map fun m =>
    applyStoich stoich (events.getD m []) (state.getD m [])
  (events, state')

/-- Modelled from the spec: the step recursion of
`discrete_markov_simulation` from `impl/discrete_markov.py` (not under
`src/`).  Runs `n` steps from step index `i`, time `t` and state `st`,
threading the seed into every per-step draw, and records each step's event
counts. -/
def simLoop (hazard_fn : ℚ → SimState → List (List ℚ))
    (stoich : List (List ℤ)) (dt : ℚ) (seed : ℕ) :
    ℕ → ℕ → ℚ → SimState → List (List (List ℕ))
  | 0, _, _, _ => []
  | n + 1, i, t, st =>
      let step := simOneStep hazard_fn stoich dt t (seed + 1000003 * i) st
      step.1 :: simLoop hazard_fn stoich dt seed n (i + 1) (t + dt) step.2

/-- Modelled from the spec: `discrete_markov_simulation(hazard_fn, state,
start, end, time_step, stoichiometry, seed)` from
`impl/discrete_markov.py` (not under `src/`).  The grid `[start, end)` with
spacing `time_step` is represented by its step count `num_steps` (the
caller passes `end = start + num_steps * time_step`).  Returns the step
times and the event counts, time-major
(`[time][metapopulation][transition]`). -/
def discrete_markov_simulation (hazard_fn : ℚ → SimState → List (List ℚ))
    (state : SimState) (start : ℚ) (num_steps : ℕ) (time_step : ℚ)
    (stoich : List (List ℤ)) (seed : ℕ) :
    List ℚ × List (List (List ℕ)) :=
  ((List.range num_steps).map fun i => start + (i : ℚ) * time_step,
    simLoop hazard_fn stoich time_step seed num_steps 0 start state)

/-- `DiscreteTimeStateTransitionModel`'s constructor arguments (the fields
the claimed behaviours read): the hazard function `transition_rates`, the
`[numTransitions × numCompartments]` stoichiometry, the
`[metapopulations × compartments]` initial state, the time origin, step
size and step count. -/
structure DiscreteTimeStateTransitionModel where
  transition_rates : ℚ → SimState → List (List ℚ)
  stoichiometry : List (List ℤ)
  initial_state : SimState
  initial_step : ℚ
  time_delta : ℚ
  num_steps : ℕ

/-- `DiscreteTimeStateTransitionModel._batch_shape`: `tf.TensorShape([])`. -/
def batch_shape (_d : DiscreteTimeStateTransitionModel) : List ℕ := []

/-- `DiscreteTimeStateTransitionModel._event_shape`:
`[initial_state.shape[0], num_steps, stoichiometry.shape[0]]`. -/
def event_shape (d : DiscreteTimeStateTransitionModel) : List ℕ :=
  [d.initial_state.length, d.num_steps, d.stoichiometry.length]

/-- The `tf.transpose(sim, perm=(1, 0, 2))` step of `_sample_n`: the
time-major simulation output is transposed to metapopulation-major
(`[metapopulation][time][transition]`). -/
def transposeSim (sim : List (List (List ℕ))) : List (List (List ℕ)) :=
  (List.range (sim.getD 0 []).length).map fun m => sim.map fun step => step.getD m []

/-- `DiscreteTimeStateTransitionModel._sample_n(n, seed)`: runs
`discrete_markov_simulation` from the model's initial state over its time
grid, gathers the per-transition counts (`transition_coords` /
`batch_gather`, which the simulation model already emits
transition-indexed), transposes to metapopulation-major and prepends a
singleton sample dimension with `tf.expand_dims(sim, 0)`.  The argument `n`
is not read by the body. -/
def sample_n (d : DiscreteTimeStateTransitionModel) (n : ℕ) (seed : ℕ) :
    List (List (List (List ℕ))) :=
  let _ := n
  let sim := (discrete_markov_simulation d.transition_rates d.initial_state
    d.initial_step d.num_steps d.time_delta d.stoichiometry seed).2
  [transposeSim sim]

section Theorems

/-- The slice count is positive exactly when some in-range entry of the
target transition slice is non-zero. -/
theorem countNonzero_pos_iff (ev : EventTensor) (x : ℕ) :
    0 < countNonzero ev x ↔ ∃ m < ev.M, ∃ t < ev.T, ev.val m t x ≠ 0 := by
  unfold countNonzero
  rw [Nat.pos_iff_ne_zero, Ne, Finset.sum_eq_zero_iff]
  push_neg
  constructor
  · rintro ⟨m, hm, hsum⟩
    rw [Ne, Finset.sum_eq_zero_iff] at hsum
    push_neg at hsum
    obtain ⟨t, ht, hval⟩ := hsum
    refine ⟨m, Finset.mem_range.mp hm, t, Finset.mem_range.mp ht, ?_⟩
    intro h0
    simp [h0] at hval
  · rintro ⟨m, hm, t, ht, hval⟩
    refine ⟨m, Finset.mem_range.mpr hm, ?_⟩
    rw [Ne, Finset.sum_eq_zero_iff]
    push_neg
    exact ⟨t, Finset.mem_range.mpr ht, by simp [hval]⟩

/-- The branch condition unfolded to a proposition. -/
theorem chooseDelete_iff (u : ℚ) (ev : EventTensor) (x : ℕ) :
    chooseDelete u ev x = true ↔
      u < 1 / 2 ∧ ∃ m < ev.M, ∃ t < ev.T, ev.val m t x ≠ 0 := by
  unfold chooseDelete
  rw [Bool.and_eq_true, decide_eq_true_eq, decide_eq_true_eq,
    countNonzero_pos_iff]

/-- C1: in `one_step`, the delete branch is chosen if and only if the drawn
uniform variate `u` is below `0.5` and the target transition slice of the
current event tensor has a non-zero entry; in every other case, in
particular when the target transition slice is all zero, the add branch is
chosen. -/
theorem one_step_delete_branch_iff (k : UncalibratedOccultUpdate)
    (addLP delLP : EventTensor → Update → ℚ) (ev : EventTensor) (u : ℚ)
    (seed : ℕ) :
    one_step k addLP delLP ev u seed =
      if u < 1 / 2 ∧ ∃ m < ev.M, ∃ t < ev.T, ev.val m t k.topology.target ≠ 0
      then delBranch k addLP delLP ev seed
      else addBranch k addLP delLP ev seed := by
  unfold one_step
  by_cases h : u < 1 / 2 ∧ ∃ m < ev.M, ∃ t < ev.T, ev.val m t k.topology.target ≠ 0
  · rw [if_pos h, if_pos ((chooseDelete_iff u ev k.topology.target).mpr h)]
  · rw [if_neg h, if_neg ?_]
    intro hb
    exact h ((chooseDelete_iff u ev k.topology.target).mp hb)

/-- C2: the correction `one_step` emits is the log density of the sampled
update under the reverse proposal built on the post-update state
(`(one_step ...).1`), minus its log density under the forward proposal
built on the current state: a delete's reverse is an add on the post-update
state, an add's reverse is a delete on the post-update state. -/
theorem one_step_correction_eq (k : UncalibratedOccultUpdate)
    (addLP delLP : EventTensor → Update → ℚ) (ev : EventTensor) (u : ℚ)
    (seed : ℕ) :
    (one_step k addLP delLP ev u seed).2.log_acceptance_correction =
      if chooseDelete u ev k.topology.target then
        addLP (one_step k addLP delLP ev u seed).1
            (delOccultSample ev k.topology.target k.t_range seed)
          - delLP ev (delOccultSample ev k.topology.target k.t_range seed)
      else
        delLP (one_step k addLP delLP ev u seed).1
            (addOccultSample ev k.nmax k.t_range seed)
          - addLP ev (addOccultSample ev k.nmax k.t_range seed) := by
  by_cases h : chooseDelete u ev k.topology.target
  · simp [one_step, h, delBranch, delMoveCorrection]
  · simp [one_step, h, addBranch, addMoveCorrection]

/-- Scatter-adding `x_star` and then `-x_star` at the same cell restores the
tensor. -/
theorem addEvents_cancel (ev : EventTensor) (m t x : ℕ) (d : ℤ) :
    addEvents (addEvents ev m t x d) m t x (-d) = ev := by
  unfold addEvents
  ext m' t' x'
  · rfl
  · rfl
  · rfl
  · by_cases h : m' = m ∧ t' = t ∧ x' = x
    · simp [h]
    · simp [h]

/-- C9: Hastings symmetry of the add/delete pair: for any event state and
update, the correction the delete branch computes on the post-add state
(the reverse kernel's perspective) is the negation of the add branch's
correction, and symmetrically the add branch's correction on the post-delete
state is the negation of the delete branch's correction. -/
theorem hastings_symmetry (addLP delLP : EventTensor → Update → ℚ) (x : ℕ)
    (ev : EventTensor) (upd : Update) :
    delMoveCorrection addLP delLP x
        (addEvents ev upd.m upd.t x (upd.x_star : ℤ)) upd
      = - addMoveCorrection addLP delLP x ev upd
    ∧ addMoveCorrection addLP delLP x
        (addEvents ev upd.m upd.t x (-(upd.x_star : ℤ))) upd
      = - delMoveCorrection addLP delLP x ev upd := by
  constructor
  · unfold delMoveCorrection addMoveCorrection
    rw [addEvents_cancel]
    ring
  · unfold delMoveCorrection addMoveCorrection
    have h := addEvents_cancel ev upd.m upd.t x (-(upd.x_star : ℤ))
    rw [neg_neg] at h
    rw [h]
    ring

/-- C4: `one_step` changes the event tensor only at the single cell indexed
by the sampled metapopulation, the sampled time and the topology's target
transition: the add branch raises that cell by exactly `x_star`, the delete
branch lowers it by exactly `x_star`, and every other entry is unchanged. -/
theorem one_step_frame (k : UncalibratedOccultUpdate)
    (addLP delLP : EventTensor → Update → ℚ) (ev : EventTensor) (u : ℚ)
    (seed : ℕ) :
    ∃ upd : Update,
      upd = (if chooseDelete u ev k.topology.target
        then delOccultSample ev k.topology.target k.t_range seed
        else addOccultSample ev k.nmax k.t_range seed) ∧
      (one_step k addLP delLP ev u seed).1.val upd.m upd.t k.topology.target
        = ev.val upd.m upd.t k.topology.target +
            (if chooseDelete u ev k.topology.target then -(upd.x_star : ℤ)
             else (upd.x_star : ℤ)) ∧
      ∀ m' t' x', ¬(m' = upd.m ∧ t' = upd.t ∧ x' = k.topology.target) →
        (one_step k addLP delLP ev u seed).1.val m' t' x' = ev.val m' t' x' := by
  by_cases h : chooseDelete u ev k.topology.target
  · refine ⟨delOccultSample ev k.topology.target k.t_range seed,
      by rw [if_pos h], ?_, ?_⟩
    · simp [one_step, h, delBranch, addEvents]
    · intro m' t' x' hne
      simp [one_step, h, delBranch, addEvents, hne]
  · refine ⟨addOccultSample ev k.nmax k.t_range seed,
      by rw [if_neg h], ?_, ?_⟩
    · simp [one_step, h, addBranch, addEvents]
    · intro m' t' x' hne
      simp [one_step, h, addBranch, addEvents, hne]

/-- C5: `bootstrap_results` returns the record whose target log probability
is the injected target density at the initial state, whose acceptance
correction is zero, and whose diagnostics vector is zeroed. -/
theorem bootstrap_results_spec (k : UncalibratedOccultUpdate)
    (init_state : EventTensor) :
    (bootstrap_results k init_state).target_log_prob
        = k.target_log_prob_fn init_state
    ∧ (bootstrap_results k init_state).log_acceptance_correction = 0
    ∧ (bootstrap_results k init_state).extra = [0, 0, 0] :=
  ⟨rfl, rfl, rfl⟩

/-- C8: the event shape of a `DiscreteTimeStateTransitionModel` is
`[metapopulations, num_steps, transition types]` — the first dimension of
the initial state, the step count, and the first dimension of the
stoichiometry — and the batch shape is empty. -/
theorem event_shape_spec (d : DiscreteTimeStateTransitionModel) :
    event_shape d = [d.initial_state.length, d.num_steps, d.stoichiometry.length]
    ∧ batch_shape d = [] :=
  ⟨rfl, rfl⟩

/-- C10: the trajectory tensor `_sample_n` returns always has a leading
sample dimension of exactly one, and the sample-size argument `n` is
ignored: any two sample sizes give the same output. -/
theorem sample_n_leading_dim_one (d : DiscreteTimeStateTransitionModel)
    (n n' seed : ℕ) :
    (sample_n d n seed).length = 1 ∧ sample_n d n seed = sample_n d n' seed :=
  ⟨rfl, rfl⟩

/-- Every cell a delete proposal can pick holds a positive event count. -/
theorem occupiedCells_mem {ev : EventTensor} {x : ℕ} {tr : Option (ℕ × ℕ)}
    {c : ℕ × ℕ} (h : c ∈ occupiedCells ev x tr) : 0 < ev.val c.1 c.2 x := by
  unfold occupiedCells at h
  rw [List.mem_flatten] at h
  obtain ⟨l, hl, hc⟩ := h
  rw [List.mem_map] at hl
  obtain ⟨m, _, rfl⟩ := hl
  rw [List.mem_filterMap] at hc
  obtain ⟨t, _, ht⟩ := hc
  by_cases hv : 0 < ev.val m t x
  · rw [if_pos hv] at ht
    obtain rfl := Option.some.inj ht
    exact hv
  · rw [if_neg hv] at ht
    exact absurd ht (Option.noConfusion)

/-- An in-range `getD` is a member of the list. -/
theorem getD_mem_of_lt {α : Type} (l : List α) (i : ℕ) (d : α)
    (h : i < l.length) : l.getD i d ∈ l := by
  rw [List.getD_eq_getElem l d h]
  exact List.getElem_mem h

/-- The add proposal's count stays within the occult cap. -/
theorem addOccultSample_le {n_max : ℕ} (ev : EventTensor)
    (tr : Option (ℕ × ℕ)) (seed : ℕ) (h : 0 < n_max) :
    (addOccultSample ev n_max tr seed).x_star ≤ n_max := by
  unfold addOccultSample
  exact Nat.one_add_le_iff.mpr (Nat.mod_lt _ h)

/-- On a non-negative tensor, the delete proposal's count never exceeds the
event count at the cell it sampled. -/
theorem delOccultSample_le {ev : EventTensor} {x : ℕ} (tr : Option (ℕ × ℕ))
    (seed : ℕ) (hnn : Nonneg ev) :
    ((delOccultSample ev x tr seed).x_star : ℤ)
      ≤ ev.val (delOccultSample ev x tr seed).m
          (delOccultSample ev x tr seed).t x := by
  unfold delOccultSample
  by_cases he : (occupiedCells ev x tr).isEmpty
  · rw [if_pos he]
    exact hnn 0 0 x
  · rw [if_neg he]
    have hlen : 0 < (occupiedCells ev x tr).length := by
      rcases hc : occupiedCells ev x tr with _ | ⟨a, l⟩
      · rw [hc] at he
        simp at he
      · simp
    have hmem := getD_mem_of_lt (occupiedCells ev x tr)
      (prngStep seed % (occupiedCells ev x tr).length) (0, 0)
      (Nat.mod_lt _ hlen)
    have hpos := occupiedCells_mem hmem
    dsimp only
    have hcap : 1 + prngStep (seed + 2) %
        (ev.val ((occupiedCells ev x tr).getD
          (prngStep seed % (occupiedCells ev x tr).length) (0, 0)).1
          ((occupiedCells ev x tr).getD
            (prngStep seed % (occupiedCells ev x tr).length) (0, 0)).2 x).toNat
        ≤ (ev.val ((occupiedCells ev x tr).getD
            (prngStep seed % (occupiedCells ev x tr).length) (0, 0)).1
            ((occupiedCells ev x tr).getD
              (prngStep seed % (occupiedCells ev x tr).length) (0, 0)).2 x).toNat :=
      Nat.one_add_le_iff.mpr (Nat.mod_lt _ (by omega))
    calc ((1 + prngStep (seed + 2) % _ : ℕ) : ℤ)
        ≤ ((ev.val _ _ x).toNat : ℤ) := Int.ofNat_le.mpr hcap
      _ = ev.val _ _ x := Int.toNat_of_nonneg (le_of_lt hpos)

/-- C6: every add proposal's sampled count is at most the configured cap
`n_max`, and every delete proposal's sampled count is at most the event
count currently present at the sampled (metapopulation, time,
target-transition) cell. -/
theorem proposal_caps (ev : EventTensor) (x n_max : ℕ) (tr : Option (ℕ × ℕ))
    (s1 s2 : ℕ) (h1 : 0 < n_max) (h2 : Nonneg ev) :
    (addOccultSample ev n_max tr s1).x_star ≤ n_max
    ∧ ((delOccultSample ev x tr s2).x_star : ℤ)
        ≤ ev.val (delOccultSample ev x tr s2).m
            (delOccultSample ev x tr s2).t x :=
  ⟨addOccultSample_le ev tr s1 h1, delOccultSample_le tr s2 h2⟩

/-- Witness for C6 at a concrete 1×1×1 tensor holding two events, cap 5. -/
theorem proposal_caps_witness :
    0 < 5 ∧ Nonneg ⟨1, 1, 1, fun _ _ _ => 2⟩ ∧
      ((addOccultSample ⟨1, 1, 1, fun _ _ _ => 2⟩ 5 none 0).x_star ≤ 5
      ∧ ((delOccultSample ⟨1, 1, 1, fun _ _ _ => 2⟩ 0 none 0).x_star : ℤ)
          ≤ (⟨1, 1, 1, fun _ _ _ => 2⟩ : EventTensor).val
              (delOccultSample ⟨1, 1, 1, fun _ _ _ => 2⟩ 0 none 0).m
              (delOccultSample ⟨1, 1, 1, fun _ _ _ => 2⟩ 0 none 0).t 0) :=
  ⟨by decide, fun _ _ _ => by norm_num,
    proposal_caps ⟨1, 1, 1, fun _ _ _ => 2⟩ 0 5 none 0 0 (by decide)
      (fun _ _ _ => by norm_num)⟩

/-- One `one_step` call preserves non-negativity of every entry. -/
theorem one_step_nonneg (k : UncalibratedOccultUpdate)
    (addLP delLP : EventTensor → Update → ℚ) (ev : EventTensor) (u : ℚ)
    (seed : ℕ) (h : Nonneg ev) :
    Nonneg (one_step k addLP delLP ev u seed).1 := by
  unfold one_step
  by_cases hb : chooseDelete u ev k.topology.target
  · rw [if_pos hb]
    intro m t x
    have hle := @delOccultSample_le ev k.topology.target k.t_range seed h
    unfold delBranch addEvents
    dsimp only
    by_cases hc : m = (delOccultSample ev k.topology.target k.t_range seed).m
        ∧ t = (delOccultSample ev k.topology.target k.t_range seed).t
        ∧ x = k.topology.target
    · rw [if_pos hc]
      obtain ⟨rfl, rfl, rfl⟩ := hc
      omega
    · rw [if_neg hc]
      exact h m t x
  · rw [if_neg hb]
    intro m t x
    unfold addBranch addEvents
    dsimp only
    by_cases hc : m = (addOccultSample ev k.nmax k.t_range seed).m
        ∧ t = (addOccultSample ev k.nmax k.t_range seed).t
        ∧ x = k.topology.target
    · rw [if_pos hc]
      have := h m t x
      positivity
    · rw [if_neg hc]
      exact h m t x

/-- C3: starting from an event tensor whose entries are all non-negative,
every entry of the tensor returned by each call of any sequence of
`one_step` calls remains non-negative — the delete branch never drives a
cell negative. -/
theorem iterateSteps_nonneg (k : UncalibratedOccultUpdate)
    (addLP delLP : EventTensor → Update → ℚ) (ev : EventTensor)
    (steps : List (ℚ × ℕ)) (h : Nonneg ev) :
    Nonneg (iterateSteps k addLP delLP ev steps) := by
  induction steps generalizing ev with
  | nil => exact h
  | cons p rest ih =>
      obtain ⟨u, s⟩ := p
      exact ih _ (one_step_nonneg k addLP delLP ev u s h)

/-- Witness for C3: a concrete kernel run for two steps from the all-zero
1×1×1 tensor stays non-negative. -/
theorem iterateSteps_nonneg_witness :
    Nonneg ⟨1, 1, 1, fun _ _ _ => 0⟩ ∧
      Nonneg (iterateSteps ⟨fun _ => 0, ⟨0⟩, 5, none⟩ (fun _ _ => 0)
        (fun _ _ => 0) ⟨1, 1, 1, fun _ _ _ => 0⟩ [(1/4, 0), (3/4, 1)]) :=
  ⟨fun _ _ _ => by norm_num,
    iterateSteps_nonneg ⟨fun _ => 0, ⟨0⟩, 5, none⟩ (fun _ _ => 0)
      (fun _ _ => 0) ⟨1, 1, 1, fun _ _ _ => 0⟩ [(1/4, 0), (3/4, 1)]
      (fun _ _ _ => by norm_num)⟩

/-- C7: the simulator is a deterministic function of its inputs and seed:
for fixed model inputs (hazard function, stoichiometry, initial state, time
grid), two `sample` calls with the same seed produce identical event-count
trajectories.  The seed is threaded explicitly through every per-step draw,
so equal seeds give equal draws at every step. -/
theorem sample_n_deterministic (d : DiscreteTimeStateTransitionModel)
    (n : ℕ) (s1 s2 : ℕ) (h : s1 = s2) :
    sample_n d n s1 = sample_n d n s2 := by
  rw [h]

/-- Witness for C7 at the spec's §8 scenario: one metapopulation, S→I
stoichiometry `[[-1, 1]]`, constant hazard `0.1`, initial state
`[100, 0]`, five unit steps, seed 42 twice. -/
theorem sample_n_deterministic_witness :
    (42 : ℕ) = 42 ∧
      sample_n ⟨fun _ _ => [[1/10]], [[-1, 1]], [[100, 0]], 0, 1, 5⟩ 1 42
        = sample_n ⟨fun _ _ => [[1/10]], [[-1, 1]], [[100, 0]], 0, 1, 5⟩ 1 42 :=
  ⟨rfl, sample_n_deterministic ⟨fun _ _ => [[1/10]], [[-1, 1]], [[100, 0]], 0, 1, 5⟩
    1 42 42 rfl⟩

end Theorems

end GemlibTfp
